import Mathlib

/-!
Verification of the uuid-mcp server core against its specification.

The executable core lives in two files: `src/server.ts` (the `generate_uuid`
and `validate_uuid` tools, the `uuid://history` resource, the module-level
`uuidHistory` array and the `generateUuidV7` function) and `src/index.ts`
(the stdio and HTTP transports, the HTTP session map and the `POST /mcp`
routing).  This development embeds that core shallowly:

* JavaScript strings are modelled as `List Char`;
* JavaScript numbers are modelled as `ℕ` where the source only ever holds
  integers, and as `ℚ` where fractional values matter (the float division in
  `generateUuidV7`, the zod `count` field);
* the IEEE-754 binary64 rounding performed by JavaScript arithmetic is
  modelled explicitly by `fl64`;
* the random-byte source and the clock are passed in as explicit parameters,
  since the source treats them as external suppliers.
-/

set_option maxHeartbeats 1000000

namespace UuidMcp

/-- Hex digit character for a nibble value, lowercase digits; models the
digits produced by JavaScript `Number.prototype.toString(16)`. -/
def hexChar (n : ℕ) : Char :=
  if n < 10 then Char.ofNat (48 + n) else Char.ofNat (87 + n)

/-- Models `b.toString(16).padStart(2, "0")` for a byte value `b < 256`:
exactly two lowercase hex digits. -/
def byteToHex (b : ℕ) : List Char := [hexChar (b / 16), hexChar (b % 16)]

/-- Models `Array.from(bytes).map((b) => b.toString(16).padStart(2, "0")).join("")`
in `generateUuidV7` (src/server.ts:248). -/
def bytesToHex (bs : List ℕ) : List Char := (bs.map byteToHex).flatten

/-- Models the final template literal of `generateUuidV7` (src/server.ts:252):
the 32-character hex string cut at offsets 8, 12, 16, 20 with hyphens
in between. -/
def formatUuid (bs : List ℕ) : List Char :=
  let hex := bytesToHex bs
  hex.take 8 ++ '-' :: ((hex.drop 8).take 4) ++ '-' :: ((hex.drop 12).take 4)
    ++ '-' :: ((hex.drop 16).take 4) ++ '-' :: hex.drop 20

/-- Round-to-nearest model of IEEE-754 binary64 rounding of an exact rational
value: normalize to a 53-bit significand at the value's binary exponent and
round the significand to the nearest integer.  Exponent-range limits
(overflow, subnormals) are irrelevant at the magnitudes that occur here, and
tie behaviour is irrelevant because every rounding in this development is
exact (see `fl64_natCast_div_pow2`). -/
def fl64 (q : ℚ) : ℚ :=
  if q = 0 then 0
  else ((round (q * (2 : ℚ) ^ ((52 : ℤ) - Int.log 2 |q|)) : ℤ) : ℚ)
    * (2 : ℚ) ^ (Int.log 2 |q| - 52)

/-- JavaScript `ToInt32`-style truncation toward zero of a number's exact
rational value. -/
def jsTrunc (q : ℚ) : ℤ := if 0 ≤ q then ⌊q⌋ else -⌊-q⌋

/-- Models the JavaScript expression `x & 0xff`: the operand is truncated
toward zero, reduced to its 32-bit pattern, and masked with `0xff`. -/
def jsAnd255 (q : ℚ) : ℕ := ((jsTrunc q % (2 : ℤ) ^ 32).toNat) &&& 255

/-- The six timestamp bytes written by `generateUuidV7` (src/server.ts:230):
`(timestamp / 2 ** 40) & 0xff` down to `timestamp & 0xff`, each division
performed on binary64 doubles (the divisions are modelled by `fl64` applied
to the exact quotient; `timestamp` itself is integral and below `2 ^ 53`,
hence exact). -/
def v7TimestampBytes (t : ℕ) : List ℕ :=
  [ jsAnd255 (fl64 ((t : ℚ) / 2 ^ 40)),
    jsAnd255 (fl64 ((t : ℚ) / 2 ^ 32)),
    jsAnd255 (fl64 ((t : ℚ) / 2 ^ 24)),
    jsAnd255 (fl64 ((t : ℚ) / 2 ^ 16)),
    jsAnd255 (fl64 ((t : ℚ) / 2 ^ 8)),
    jsAnd255 ((t : ℚ)) ]

/-- The 16-byte buffer built by `generateUuidV7` (src/server.ts:227): six
timestamp bytes, ten random bytes, then
`bytes[6] = (bytes[6] & 0x0f) | 0x70` and `bytes[8] = (bytes[8] & 0x3f) | 0x80`. -/
def v7Bytes (t : ℕ) (r : Fin 10 → ℕ) : List ℕ :=
  let bytes := v7TimestampBytes t ++ [r 0, r 1, r 2, r 3, r 4, r 5, r 6, r 7, r 8, r 9]
  let bytes2 := bytes.set 6 ((bytes.getD 6 0 &&& 0x0f) ||| 0x70)
  bytes2.set 8 ((bytes2.getD 8 0 &&& 0x3f) ||| 0x80)

/-- Models `generateUuidV7` (src/server.ts:223): build the 16-byte buffer at
timestamp `t` with random bytes `r`, then format canonically. -/
def generateUuidV7 (t : ℕ) (r : Fin 10 → ℕ) : List Char := formatUuid (v7Bytes t r)

/-- Modelled from the spec: `randomUUID` from `node:crypto` is a platform
primitive, not part of src.  Per the spec's random variant, all 16 bytes come
from the random source, the 4-bit version field and 2-bit variant field are
then forced (RFC-4122-style layout, version nibble 4, variant bits 10), and
the result is rendered canonically in lowercase. -/
def randomUUID (r : Fin 16 → ℕ) : List Char :=
  let bytes := [r 0, r 1, r 2, r 3, r 4, r 5, r 6, r 7, r 8, r 9, r 10, r 11,
    r 12, r 13, r 14, r 15]
  let bytes2 := bytes.set 6 ((bytes.getD 6 0 &&& 0x0f) ||| 0x40)
  formatUuid (bytes2.set 8 ((bytes2.getD 8 0 &&& 0x3f) ||| 0x80))

/-- Character class `[0-9a-f]` under the regex `i` flag (src/server.ts:136). -/
def isHexDigit (c : Char) : Bool :=
  (48 ≤ c.toNat && c.toNat ≤ 57) || (97 ≤ c.toNat && c.toNat ≤ 102)
    || (65 ≤ c.toNat && c.toNat ≤ 70)

/-- Character class `[1-7]` (the version nibble position of the regex). -/
def isVersionChar (c : Char) : Bool := 49 ≤ c.toNat && c.toNat ≤ 55

/-- Character class `[89ab]` under the `i` flag (the variant nibble position). -/
def isVariantChar (c : Char) : Bool :=
  c.toNat = 56 || c.toNat = 57 || c.toNat = 97 || c.toNat = 98
    || c.toNat = 65 || c.toNat = 66

/-- Consume exactly `n` characters each satisfying `p`, returning the rest;
models an `{n}`-fold repetition of a character class in the regex. -/
def matchReps (p : Char → Bool) : ℕ → List Char → Option (List Char)
  | 0, l => some l
  | _ + 1, [] => none
  | n + 1, c :: l => if p c then matchReps p n l else none

/-- Consume one literal character. -/
def matchChar (c : Char) : List Char → Option (List Char)
  | [] => none
  | d :: l => if d = c then some l else none

/-- Models `uuidPattern.test(uuid)` (src/server.ts:135) for the regex
`[0-9a-f]{8}-[0-9a-f]{4}-[1-7][0-9a-f]{3}-[89ab][0-9a-f]{3}-[0-9a-f]{12}`
with `i` flag, anchored at both ends: the concatenated sub-matchers must
consume the whole input. -/
def uuidPatternTest (l : List Char) : Bool :=
  ((((((((((matchReps isHexDigit 8 l).bind (matchChar '-')).bind
    (matchReps isHexDigit 4)).bind (matchChar '-')).bind
    (matchReps isVersionChar 1)).bind (matchReps isHexDigit 3)).bind (matchChar '-')).bind
    (matchReps isVariantChar 1)).bind (matchReps isHexDigit 3)).bind (matchChar '-')).bind
    (matchReps isHexDigit 12) == some []

/-- Models the `validate_uuid` handler's verdict (src/server.ts:137). -/
def validateUuid (s : List Char) : Bool := uuidPatternTest s

/-- Models the handler's detected-version computation (src/server.ts:139):
when valid, read `uuid[14]` and produce the string `v` followed by that
character. -/
def detectedVersion (s : List Char) : Option (List Char) :=
  if validateUuid s then
    match s.get? 14 with
    | some c => some ['v', c]
    | none => none
  else none

/-- Value of a hex digit, case-insensitive; `16` for a non-hex character.
Spec-side helper. -/
def hexVal (c : Char) : ℕ :=
  if 48 ≤ c.toNat ∧ c.toNat ≤ 57 then c.toNat - 48
  else if 97 ≤ c.toNat ∧ c.toNat ≤ 102 then c.toNat - 87
  else if 65 ≤ c.toNat ∧ c.toNat ≤ 70 then c.toNat - 55
  else 16

/-- Spec-side canonical grammar, following the spec's words: the candidate is
hex groups of sizes 8-4-4-4-12 joined by hyphens at the fixed positions, hex
digits accepted case-insensitively, the version nibble (first digit of the
third group) has value in 1..7, and the variant nibble (first digit of the
fourth group) has its top two bits equal to `10`, i.e. value divided by 4
equals 2. -/
def CanonicalGrammar (s : List Char) : Prop :=
  ∃ g1 g2 g3 g4 g5 : List Char,
    s = g1 ++ '-' :: g2 ++ '-' :: g3 ++ '-' :: g4 ++ '-' :: g5 ∧
    g1.length = 8 ∧ g2.length = 4 ∧ g3.length = 4 ∧ g4.length = 4 ∧ g5.length = 12 ∧
    (∀ c ∈ g1 ++ g2 ++ g3 ++ g4 ++ g5, hexVal c < 16) ∧
    1 ≤ hexVal (g3.getD 0 ' ') ∧ hexVal (g3.getD 0 ' ') ≤ 7 ∧
    hexVal (g4.getD 0 ' ') / 4 = 2

/-- Lowercase hex digit (spec-side, for the canonical lowercase rendering). -/
def IsLowerHex (c : Char) : Prop :=
  (48 ≤ c.toNat ∧ c.toNat ≤ 57) ∨ (97 ≤ c.toNat ∧ c.toNat ≤ 102)

instance (c : Char) : Decidable (IsLowerHex c) := by
  unfold IsLowerHex
  infer_instance

/-- Spec-side canonical lowercase rendering: 8-4-4-4-12 lowercase hex digit
groups joined by hyphens. -/
def CanonicalFormat (s : List Char) : Prop :=
  ∃ g1 g2 g3 g4 g5 : List Char,
    s = g1 ++ '-' :: g2 ++ '-' :: g3 ++ '-' :: g4 ++ '-' :: g5 ∧
    g1.length = 8 ∧ g2.length = 4 ∧ g3.length = 4 ∧ g4.length = 4 ∧ g5.length = 12 ∧
    (∀ c ∈ g1 ++ g2 ++ g3 ++ g4 ++ g5, IsLowerHex c)

/-- The two values of the `version` zod enum (src/server.ts:69). -/
inductive Version where
  | v4 : Version
  | v7 : Version
deriving DecidableEq

/-- The version string stored in history records and reported by
`validate_uuid` ("v4" or "v7"). -/
def versionStr : Version → List Char
  | .v4 => ['v', '4']
  | .v7 => ['v', '7']

/-- One entry of the module-level `uuidHistory` array (src/server.ts:21):
`{ uuid, version, createdAt }`. -/
structure Record where
  uuid : List Char
  version : Version
  createdAt : List Char
deriving DecidableEq

/-- Environment supplying, for the `i`-th loop iteration of the
`generate_uuid` handler, the clock value read by `generateUuidV7`, the random
bytes of either generator, and the `new Date().toISOString()` string. -/
structure GenEnv where
  time : ℕ → ℕ
  rnd7 : ℕ → Fin 10 → ℕ
  rnd4 : ℕ → Fin 16 → ℕ
  iso : ℕ → List Char

/-- All random bytes supplied by the environment are actual byte values. -/
def WellRandom (env : GenEnv) : Prop :=
  (∀ i j, env.rnd7 i j < 256) ∧ (∀ i j, env.rnd4 i j < 256)

/-- The identifier generated at loop iteration `i` (src/server.ts:78): `v7`
uses `generateUuidV7`, otherwise `randomUUID`. -/
def genOne (ver : Version) (env : GenEnv) (i : ℕ) : List Char :=
  match ver with
  | .v7 => generateUuidV7 (env.time i) (env.rnd7 i)
  | .v4 => randomUUID (env.rnd4 i)

/-- The history record pushed at loop iteration `i` (src/server.ts:94). -/
def generatedRecord (ver : Version) (env : GenEnv) (i : ℕ) : Record :=
  { uuid := genOne ver env i, version := ver, createdAt := env.iso i }

/-- Models the `while (uuidHistory.length > 100) uuidHistory.shift()` loop
(src/server.ts:102). -/
def trimHistory (l : List Record) : List Record :=
  if _h : 100 < l.length then trimHistory l.tail else l
termination_by l.length
decreasing_by simp only [List.length_tail]; omega

/-- Models the `generate_uuid` handler (src/server.ts:75): generate `count`
identifiers, push one record per identifier onto the history, then trim; the
first component is the list of generated identifiers. -/
def generateHandler (ver : Version) (count : ℕ) (env : GenEnv) (history : List Record) :
    List (List Char) × List Record :=
  ((List.range count).map (genOne ver env),
    trimHistory (history ++ (List.range count).map (generatedRecord ver env)))

/-- Models `uuidHistory.slice(-n)` for `1 ≤ n` (src/server.ts:194): the last
`n` elements, or the whole list when shorter. -/
def sliceLast (n : ℕ) (l : List Record) : List Record := l.drop (l.length - n)

/-- Models the `uuid-history` resource handler (src/server.ts:185): the total
record count and the most recent 20 records. -/
def historyResource (h : List Record) : ℕ × List Record := (h.length, sliceLast 20 h)

/-- One `generate_uuid` invocation together with its environment. -/
structure Call where
  version : Version
  count : ℕ
  env : GenEnv

/-- The records a call appends to the history (before trimming). -/
def callRecords (c : Call) : List Record :=
  (List.range c.count).map (generatedRecord c.version c.env)

/-- All records appended by a sequence of calls, in order. -/
def allRecords (cs : List Call) : List Record := cs.flatMap callRecords

/-- Run a sequence of `generate_uuid` calls from a starting history. -/
def runFrom (cs : List Call) (h : List Record) : List Record :=
  cs.foldl (fun acc c => (generateHandler c.version c.count c.env acc).2) h

/-- Run a sequence of `generate_uuid` calls from the initial empty history. -/
def runCalls (cs : List Call) : List Record := runFrom cs []

/-- A `POST /mcp` request as seen by the route handler (src/index.ts:140):
the `mcp-session-id` header value and whether the body is an initialize
request. -/
structure PostRequest where
  header : Option String
  isInit : Bool

/-- The token effectively carried by a request.  The source tests the header
with JavaScript truthiness (`sessionId && ...`, `!sessionId`), so an absent
header and an empty header value both carry no token. -/
def tokenOf (req : PostRequest) : Option String :=
  match req.header with
  | none => none
  | some s => if s.isEmpty then none else some s

/-- Outcome of `POST /mcp`: dispatched to a transport, or rejected with an
HTTP status and a JSON-RPC error code. -/
inductive PostOutcome where
  | handled : PostOutcome
  | rejected : ℕ → ℤ → PostOutcome
deriving DecidableEq

/-- Models the `app.post("/mcp")` route (src/index.ts:140).  A recognized
token reuses its session; no token plus an initialize body mints a fresh
session (the SDK transport invokes `onsessioninitialized`, which inserts
`freshId` into the map); anything else is rejected with HTTP 400 and
JSON-RPC code -32000, leaving the map unchanged. -/
def handlePost (sessions : List String) (req : PostRequest) (freshId : String) :
    PostOutcome × List String :=
  match tokenOf req with
  | some sid =>
    if sid ∈ sessions then (.handled, sessions) else (.rejected 400 (-32000), sessions)
  | none =>
    if req.isInit then (.handled, freshId :: sessions) else (.rejected 400 (-32000), sessions)

/-- Process-wide state in HTTP mode: the session map (src/index.ts:131) and
the single module-level `uuidHistory` array (src/server.ts:21).  The history
is declared at module scope, outside `createUuidServer`, so every `McpServer`
created for a session closes over this one array. -/
structure ProcState where
  sessions : List String
  history : List Record

/-- A `generate_uuid` call dispatched through session `sid`: the session's
own dispatcher runs the handler, but the handler mutates the shared
module-level history. -/
def sessionGenerate (st : ProcState) (sid : String) (ver : Version) (count : ℕ)
    (env : GenEnv) : ProcState :=
  if sid ∈ st.sessions then
    { st with history := (generateHandler ver count env st.history).2 }
  else st

/-- A `uuid://history` resource read through session `sid`: the session's
dispatcher serves the resource from the shared module-level history. -/
def sessionReadHistory (st : ProcState) (sid : String) : Option (ℕ × List Record) :=
  if sid ∈ st.sessions then some (historyResource st.history) else none

/-- InvalidParams-class schema rejection (JSON-RPC -32602), produced by the
SDK's zod validation before the handler runs. -/
inductive SchemaError where
  | invalidParams : SchemaError
deriving DecidableEq

/-- Models `z.enum(["v4", "v7"]).default("v4")` (src/server.ts:68). -/
def parseVersionField : Option String → Except SchemaError Version
  | none => .ok .v4
  | some s =>
    if s = "v4" then .ok .v4 else if s = "v7" then .ok .v7 else .error .invalidParams

/-- Models `z.number().min(1).max(10).default(1)` (src/server.ts:72); a
JavaScript number is modelled as a rational. -/
def parseCountField : Option ℚ → Except SchemaError ℚ
  | none => .ok 1
  | some x => if 1 ≤ x ∧ x ≤ 10 then .ok x else .error .invalidParams

/-- Validation of the `generate_uuid` input schema: both fields must pass. -/
def parseGenerateArgs (v : Option String) (c : Option ℚ) :
    Except SchemaError (Version × ℚ) :=
  match parseVersionField v, parseCountField c with
  | .ok ver, .ok ct => .ok (ver, ct)
  | .error e, _ => .error e
  | _, .error e => .error e

/-- Fixed-width big-endian hex rendering of a natural number (spec-side
helper for the lexicographic-order property). -/
def hexFixed : ℕ → ℕ → List Char
  | 0, _ => []
  | w + 1, n => hexChar (n / 16 ^ w) :: hexFixed w (n % 16 ^ w)

/-- The portion of a time-ordered identifier after the first thirteen
characters: it depends only on the random bytes, not on the timestamp. -/
def v7Tail (r : Fin 10 → ℕ) : List Char :=
  (byteToHex ((r 0 &&& 15) ||| 112) ++ byteToHex (r 1)) ++ '-' ::
    ((byteToHex ((r 2 &&& 63) ||| 128) ++ byteToHex (r 3)) ++ '-' ::
      (byteToHex (r 4) ++ byteToHex (r 5) ++ byteToHex (r 6) ++ byteToHex (r 7)
        ++ byteToHex (r 8) ++ byteToHex (r 9)))

/-- A concrete all-zero environment, used to instantiate theorems at a
specific input. -/
def zeroEnv : GenEnv :=
  { time := fun _ => 0, rnd7 := fun _ _ => 0, rnd4 := fun _ _ => 0, iso := fun _ => [] }

/-- A concrete single-count v4 call in the all-zero environment. -/
def zeroCall : Call := { version := Version.v4, count := 1, env := zeroEnv }

/-! ### Matcher lemmas -/

theorem matchChar_eq_some {c : Char} {l r : List Char} :
    matchChar c l = some r ↔ l = c :: r := by
  cases l with
  | nil => simp [matchChar]
  | cons d l2 =>
    by_cases h : d = c
    · subst h; simp [matchChar]
    · simp [matchChar, h]

theorem matchReps_eq_some {p : Char → Bool} {n : ℕ} {l r : List Char} :
    matchReps p n l = some r ↔
    ∃ pre : List Char, pre.length = n ∧ (∀ c ∈ pre, p c = true) ∧ l = pre ++ r := by
  induction n generalizing l with
  | zero =>
    simp only [matchReps, Option.some.injEq]
    constructor
    · intro h
      exact ⟨[], rfl, by simp, by simp [h]⟩
    · rintro ⟨pre, hlen, -, hl⟩
      obtain rfl := List.length_eq_zero.mp hlen
      simpa using hl
  | succ n ih =>
    cases l with
    | nil =>
      simp only [matchReps]
      constructor
      · rintro ⟨⟩
      · rintro ⟨pre, hlen, -, hl⟩
        cases pre with
        | nil => simp at hlen
        | cons a t => simp at hl
    | cons c l2 =>
      simp only [matchReps]
      by_cases hc : p c = true
      · rw [if_pos hc, ih]
        constructor
        · rintro ⟨pre, hlen, hall, hl⟩
          refine ⟨c :: pre, by simp [hlen], ?_, by simp [hl]⟩
          intro x hx
          rcases List.mem_cons.mp hx with rfl | hx
          · exact hc
          · exact hall x hx
        · rintro ⟨pre, hlen, hall, hl⟩
          cases pre with
          | nil => simp at hlen
          | cons a t =>
            simp only [List.cons_append, List.cons.injEq] at hl
            obtain ⟨rfl, hl2⟩ := hl
            exact ⟨t, by simpa using hlen, fun x hx => hall x (List.mem_cons_of_mem _ hx), hl2⟩
      · rw [if_neg hc]
        constructor
        · rintro ⟨⟩
        · rintro ⟨pre, hlen, hall, hl⟩
          cases pre with
          | nil => simp at hlen
          | cons a t =>
            simp only [List.cons_append, List.cons.injEq] at hl
            obtain ⟨rfl, -⟩ := hl
            exact absurd (hall c (List.mem_cons_self c t)) hc

theorem matchReps_exact {p : Char → Bool} {pre : List Char} {n : ℕ} (rest : List Char)
    (hlen : pre.length = n) (hall : ∀ c ∈ pre, p c = true) :
    matchReps p n (pre ++ rest) = some rest :=
  matchReps_eq_some.mpr ⟨pre, hlen, hall, rfl⟩

theorem matchReps_one {p : Char → Bool} {c : Char} (l : List Char) (hc : p c = true) :
    matchReps p 1 (c :: l) = some l := by
  simp [matchReps, hc]

theorem matchChar_cons (c : Char) (l : List Char) : matchChar c (c :: l) = some l := by
  simp [matchChar]

/-- The regex test succeeds exactly on inputs decomposable into the grammar's
groups, with the version and variant positions split off explicitly. -/
theorem uuidPatternTest_iff {l : List Char} :
    uuidPatternTest l = true ↔
    ∃ g1 g2 g3 g4 g5 : List Char, ∃ v w : Char,
      l = g1 ++ '-' :: g2 ++ '-' :: v :: g3 ++ '-' :: w :: g4 ++ '-' :: g5 ∧
      g1.length = 8 ∧ g2.length = 4 ∧ g3.length = 3 ∧ g4.length = 3 ∧ g5.length = 12 ∧
      (∀ c ∈ g1, isHexDigit c = true) ∧ (∀ c ∈ g2, isHexDigit c = true) ∧
      (∀ c ∈ g3, isHexDigit c = true) ∧ (∀ c ∈ g4, isHexDigit c = true) ∧
      (∀ c ∈ g5, isHexDigit c = true) ∧
      isVersionChar v = true ∧ isVariantChar w = true := by
  constructor
  · intro h
    simp only [uuidPatternTest, beq_iff_eq] at h
    obtain ⟨j, hx9, hj⟩ := Option.bind_eq_some.mp h
    obtain ⟨i, hx8, hij⟩ := Option.bind_eq_some.mp hx9
    obtain ⟨h2, hx7, hhi⟩ := Option.bind_eq_some.mp hx8
    obtain ⟨g, hx6, hgh⟩ := Option.bind_eq_some.mp hx7
    obtain ⟨f, hx5, hfg⟩ := Option.bind_eq_some.mp hx6
    obtain ⟨e, hx4, hef⟩ := Option.bind_eq_some.mp hx5
    obtain ⟨d, hx3, hde⟩ := Option.bind_eq_some.mp hx4
    obtain ⟨c2, hx2, hcd⟩ := Option.bind_eq_some.mp hx3
    obtain ⟨b, hx1, hbc⟩ := Option.bind_eq_some.mp hx2
    obtain ⟨a, hx0, hab⟩ := Option.bind_eq_some.mp hx1
    obtain ⟨g1, hg1l, hg1p, rfl⟩ := matchReps_eq_some.mp hx0
    obtain rfl := matchChar_eq_some.mp hab
    obtain ⟨g2, hg2l, hg2p, rfl⟩ := matchReps_eq_some.mp hbc
    obtain rfl := matchChar_eq_some.mp hcd
    obtain ⟨gv, hgvl, hgvp, rfl⟩ := matchReps_eq_some.mp hde
    obtain ⟨v, rfl⟩ := List.length_eq_one.mp hgvl
    obtain ⟨g3, hg3l, hg3p, rfl⟩ := matchReps_eq_some.mp hef
    obtain rfl := matchChar_eq_some.mp hfg
    obtain ⟨gw, hgwl, hgwp, rfl⟩ := matchReps_eq_some.mp hgh
    obtain ⟨w, rfl⟩ := List.length_eq_one.mp hgwl
    obtain ⟨g4, hg4l, hg4p, rfl⟩ := matchReps_eq_some.mp hhi
    obtain rfl := matchChar_eq_some.mp hij
    obtain ⟨g5, hg5l, hg5p, rfl⟩ := matchReps_eq_some.mp hj
    refine ⟨g1, g2, g3, g4, g5, v, w, ?_, hg1l, hg2l, hg3l, hg4l, hg5l,
      hg1p, hg2p, hg3p, hg4p, hg5p, by simpa using hgvp v, by simpa using hgwp w⟩
    simp
  · rintro ⟨g1, g2, g3, g4, g5, v, w, rfl, hg1l, hg2l, hg3l, hg4l, hg5l,
      hg1p, hg2p, hg3p, hg4p, hg5p, hv, hw⟩
    simp only [uuidPatternTest, beq_iff_eq, List.append_assoc, List.cons_append]
    rw [matchReps_exact _ hg1l hg1p]
    simp only [Option.some_bind]
    rw [matchChar_cons]
    simp only [Option.some_bind]
    rw [matchReps_exact _ hg2l hg2p]
    simp only [Option.some_bind]
    rw [matchChar_cons]
    simp only [Option.some_bind]
    rw [matchReps_one _ hv]
    simp only [Option.some_bind]
    rw [matchReps_exact _ hg3l hg3p]
    simp only [Option.some_bind]
    rw [matchChar_cons]
    simp only [Option.some_bind]
    rw [matchReps_one _ hw]
    simp only [Option.some_bind]
    rw [matchReps_exact _ hg4l hg4p]
    simp only [Option.some_bind]
    rw [matchChar_cons]
    simp only [Option.some_bind]
    rw [← List.append_nil g5, matchReps_exact _ hg5l hg5p]

/-! ### Character-class value lemmas -/

theorem hexVal_lt_iff {c : Char} : hexVal c < 16 ↔ isHexDigit c = true := by
  simp only [hexVal, isHexDigit, Bool.or_eq_true, Bool.and_eq_true, decide_eq_true_eq]
  split_ifs with h1 h2 h3 <;> omega

theorem isVersionChar_iff {c : Char} :
    isVersionChar c = true ↔ 1 ≤ hexVal c ∧ hexVal c ≤ 7 := by
  simp only [hexVal, isVersionChar, Bool.and_eq_true, decide_eq_true_eq]
  split_ifs with h1 h2 h3 <;> omega

theorem isVariantChar_iff {c : Char} :
    isVariantChar c = true ↔ hexVal c / 4 = 2 := by
  simp only [hexVal, isVariantChar, Bool.or_eq_true, decide_eq_true_eq]
  split_ifs with h1 h2 h3 <;> omega

/-- C4: validate_uuid is a total pure predicate over arbitrary strings — it is
a total function by construction, so every input gets a verdict and malformed
input yields a `false` verdict rather than a failure — and the verdict is
`true` exactly when the candidate matches the canonical grammar: 8-4-4-4-12
hex groups with hyphens at the fixed positions, version nibble in {1..7},
variant nibble's top two bits equal to 10, hex digits case-insensitive. -/
theorem c4_validateUuid_iff_canonicalGrammar (s : List Char) :
    validateUuid s = true ↔ CanonicalGrammar s := by
  rw [validateUuid, uuidPatternTest_iff]
  constructor
  · rintro ⟨g1, g2, g3, g4, g5, v, w, rfl, hg1l, hg2l, hg3l, hg4l, hg5l,
      hg1p, hg2p, hg3p, hg4p, hg5p, hv, hw⟩
    obtain ⟨hv1, hv2⟩ := isVersionChar_iff.mp hv
    have hwv := isVariantChar_iff.mp hw
    refine ⟨g1, g2, v :: g3, w :: g4, g5, rfl, hg1l, hg2l, by simp [hg3l],
      by simp [hg4l], hg5l, ?_, by simpa using hv1, by simpa using hv2, by simpa using hwv⟩
    intro c hc
    simp only [List.mem_append, List.mem_cons] at hc
    rcases hc with ((((hc | hc) | rfl | hc) | rfl | hc) | hc)
    · exact hexVal_lt_iff.mpr (hg1p c hc)
    · exact hexVal_lt_iff.mpr (hg2p c hc)
    · omega
    · exact hexVal_lt_iff.mpr (hg3p c hc)
    · omega
    · exact hexVal_lt_iff.mpr (hg4p c hc)
    · exact hexVal_lt_iff.mpr (hg5p c hc)
  · rintro ⟨g1, g2, G3, G4, g5, rfl, hg1l, hg2l, hG3l, hG4l, hg5l, hall, hv1, hv2, hwv⟩
    cases G3 with
    | nil => simp at hG3l
    | cons v g3 =>
      cases G4 with
      | nil => simp at hG4l
      | cons w g4 =>
        simp only [List.getD_cons_zero] at hv1 hv2 hwv
        refine ⟨g1, g2, g3, g4, g5, v, w, rfl, hg1l, hg2l, by simpa using hG3l,
          by simpa using hG4l, hg5l, ?_, ?_, ?_, ?_, ?_,
          isVersionChar_iff.mpr ⟨hv1, hv2⟩, isVariantChar_iff.mpr hwv⟩
        · exact fun c hc => hexVal_lt_iff.mp (hall c (by simp [hc]))
        · exact fun c hc => hexVal_lt_iff.mp (hall c (by simp [hc]))
        · exact fun c hc => hexVal_lt_iff.mp (hall c (by simp [hc]))
        · exact fun c hc => hexVal_lt_iff.mp (hall c (by simp [hc]))
        · exact fun c hc => hexVal_lt_iff.mp (hall c (by simp [hc]))

/-! ### Byte bounds and hex-character facts -/

theorem jsAnd255_lt (q : ℚ) : jsAnd255 q < 256 := by
  have h : jsAnd255 q ≤ 255 := Nat.and_le_right
  omega

theorem and15_or112_lt (x : ℕ) : ((x &&& 15) ||| 112) < 256 := by
  have h : x &&& 15 ≤ 15 := Nat.and_le_right
  set a := x &&& 15 with ha
  interval_cases a <;> decide

theorem and15_or112_div16 (x : ℕ) : ((x &&& 15) ||| 112) / 16 = 7 := by
  have h : x &&& 15 ≤ 15 := Nat.and_le_right
  set a := x &&& 15 with ha
  interval_cases a <;> decide

theorem and15_or64_lt (x : ℕ) : ((x &&& 15) ||| 64) < 256 := by
  have h : x &&& 15 ≤ 15 := Nat.and_le_right
  set a := x &&& 15 with ha
  interval_cases a <;> decide

theorem and15_or64_div16 (x : ℕ) : ((x &&& 15) ||| 64) / 16 = 4 := by
  have h : x &&& 15 ≤ 15 := Nat.and_le_right
  set a := x &&& 15 with ha
  interval_cases a <;> decide

theorem and63_or128_lt (x : ℕ) : ((x &&& 63) ||| 128) < 256 := by
  have h : x &&& 63 ≤ 63 := Nat.and_le_right
  set a := x &&& 63 with ha
  interval_cases a <;> decide

theorem and63_or128_div16 (x : ℕ) :
    8 ≤ ((x &&& 63) ||| 128) / 16 ∧ ((x &&& 63) ||| 128) / 16 ≤ 11 := by
  have h : x &&& 63 ≤ 63 := Nat.and_le_right
  set a := x &&& 63 with ha
  interval_cases a <;> decide

theorem and63_or128_div64 (x : ℕ) : ((x &&& 63) ||| 128) / 64 = 2 := by
  have h : x &&& 63 ≤ 63 := Nat.and_le_right
  set a := x &&& 63 with ha
  interval_cases a <;> decide

theorem isHexDigit_hexChar : ∀ d : ℕ, d < 16 → isHexDigit (hexChar d) = true := by decide

theorem isLowerHex_hexChar : ∀ d : ℕ, d < 16 → IsLowerHex (hexChar d) := by decide

theorem isVariantChar_hexChar : ∀ d : ℕ, d < 12 → 8 ≤ d → isVariantChar (hexChar d) = true := by
  decide

/-! ### The canonical shape of formatted identifiers -/

theorem formatUuid_valid (b0 b1 b2 b3 b4 b5 b6 b7 b8 b9 b10 b11 b12 b13 b14 b15 : ℕ)
    (h0 : b0 < 256) (h1 : b1 < 256) (h2 : b2 < 256) (h3 : b3 < 256) (h4 : b4 < 256)
    (h5 : b5 < 256) (_h6 : b6 < 256) (h7 : b7 < 256) (_h8 : b8 < 256) (h9 : b9 < 256)
    (h10 : b10 < 256) (h11 : b11 < 256) (h12 : b12 < 256) (h13 : b13 < 256)
    (h14 : b14 < 256) (h15 : b15 < 256)
    (hv : isVersionChar (hexChar (b6 / 16)) = true)
    (hw : isVariantChar (hexChar (b8 / 16)) = true) :
    validateUuid
      (formatUuid [b0, b1, b2, b3, b4, b5, b6, b7, b8, b9, b10, b11, b12, b13, b14, b15])
      = true := by
  rw [validateUuid]
  apply uuidPatternTest_iff.mpr
  refine ⟨byteToHex b0 ++ byteToHex b1 ++ byteToHex b2 ++ byteToHex b3,
    byteToHex b4 ++ byteToHex b5,
    hexChar (b6 % 16) :: byteToHex b7,
    hexChar (b8 % 16) :: byteToHex b9,
    byteToHex b10 ++ byteToHex b11 ++ byteToHex b12 ++ byteToHex b13
      ++ byteToHex b14 ++ byteToHex b15,
    hexChar (b6 / 16), hexChar (b8 / 16), rfl, by simp [byteToHex], by simp [byteToHex],
    by simp [byteToHex], by simp [byteToHex], by simp [byteToHex], ?_, ?_, ?_, ?_, ?_, hv, hw⟩
  · intro c hc
    simp [byteToHex] at hc
    rcases hc with rfl | rfl | rfl | rfl | rfl | rfl | rfl | rfl <;>
      exact isHexDigit_hexChar _ (by omega)
  · intro c hc
    simp [byteToHex] at hc
    rcases hc with rfl | rfl | rfl | rfl <;> exact isHexDigit_hexChar _ (by omega)
  · intro c hc
    simp [byteToHex] at hc
    rcases hc with rfl | rfl | rfl <;> exact isHexDigit_hexChar _ (by omega)
  · intro c hc
    simp [byteToHex] at hc
    rcases hc with rfl | rfl | rfl <;> exact isHexDigit_hexChar _ (by omega)
  · intro c hc
    simp [byteToHex] at hc
    rcases hc with rfl | rfl | rfl | rfl | rfl | rfl | rfl | rfl | rfl | rfl | rfl | rfl <;>
      exact isHexDigit_hexChar _ (by omega)

theorem formatUuid_canonicalFormat
    (b0 b1 b2 b3 b4 b5 b6 b7 b8 b9 b10 b11 b12 b13 b14 b15 : ℕ)
    (h0 : b0 < 256) (h1 : b1 < 256) (h2 : b2 < 256) (h3 : b3 < 256) (h4 : b4 < 256)
    (h5 : b5 < 256) (h6 : b6 < 256) (h7 : b7 < 256) (h8 : b8 < 256) (h9 : b9 < 256)
    (h10 : b10 < 256) (h11 : b11 < 256) (h12 : b12 < 256) (h13 : b13 < 256)
    (h14 : b14 < 256) (h15 : b15 < 256) :
    CanonicalFormat
      (formatUuid [b0, b1, b2, b3, b4, b5, b6, b7, b8, b9, b10, b11, b12, b13, b14, b15]) := by
  refine ⟨byteToHex b0 ++ byteToHex b1 ++ byteToHex b2 ++ byteToHex b3,
    byteToHex b4 ++ byteToHex b5,
    byteToHex b6 ++ byteToHex b7,
    byteToHex b8 ++ byteToHex b9,
    byteToHex b10 ++ byteToHex b11 ++ byteToHex b12 ++ byteToHex b13
      ++ byteToHex b14 ++ byteToHex b15,
    rfl, by simp [byteToHex], by simp [byteToHex], by simp [byteToHex], by simp [byteToHex],
    by simp [byteToHex], ?_⟩
  intro c hc
  simp [byteToHex] at hc
  rcases hc with rfl | rfl | rfl | rfl | rfl | rfl | rfl | rfl | rfl | rfl | rfl | rfl | rfl |
    rfl | rfl | rfl | rfl | rfl | rfl | rfl | rfl | rfl | rfl | rfl | rfl | rfl | rfl | rfl |
    rfl | rfl | rfl | rfl <;>
    exact isLowerHex_hexChar _ (by omega)

/-! ### Per-generator facts -/

theorem v7Bytes_eq (t : ℕ) (r : Fin 10 → ℕ) :
    v7Bytes t r =
      [ jsAnd255 (fl64 ((t : ℚ) / 2 ^ 40)), jsAnd255 (fl64 ((t : ℚ) / 2 ^ 32)),
        jsAnd255 (fl64 ((t : ℚ) / 2 ^ 24)), jsAnd255 (fl64 ((t : ℚ) / 2 ^ 16)),
        jsAnd255 (fl64 ((t : ℚ) / 2 ^ 8)), jsAnd255 ((t : ℚ)),
        (r 0 &&& 15) ||| 112, r 1, (r 2 &&& 63) ||| 128, r 3, r 4, r 5, r 6, r 7, r 8, r 9 ] :=
  rfl

theorem randomUUID_bytes_eq (r : Fin 16 → ℕ) :
    randomUUID r =
      formatUuid [ r 0, r 1, r 2, r 3, r 4, r 5, (r 6 &&& 15) ||| 64, r 7,
        (r 8 &&& 63) ||| 128, r 9, r 10, r 11, r 12, r 13, r 14, r 15 ] :=
  rfl

theorem validate_generateUuidV7 (t : ℕ) (r : Fin 10 → ℕ) (hr : ∀ i, r i < 256) :
    validateUuid (generateUuidV7 t r) = true := by
  rw [generateUuidV7, v7Bytes_eq]
  exact formatUuid_valid _ _ _ _ _ _ _ _ _ _ _ _ _ _ _ _
    (jsAnd255_lt _) (jsAnd255_lt _) (jsAnd255_lt _) (jsAnd255_lt _) (jsAnd255_lt _)
    (jsAnd255_lt _) (and15_or112_lt _) (hr 1) (and63_or128_lt _) (hr 3) (hr 4) (hr 5)
    (hr 6) (hr 7) (hr 8) (hr 9)
    (by rw [and15_or112_div16]; decide)
    (isVariantChar_hexChar _ (by have h := (and63_or128_div16 (r 2)).2; omega)
      (and63_or128_div16 (r 2)).1)

theorem validate_randomUUID (r : Fin 16 → ℕ) (hr : ∀ i, r i < 256) :
    validateUuid (randomUUID r) = true := by
  rw [randomUUID_bytes_eq]
  exact formatUuid_valid _ _ _ _ _ _ _ _ _ _ _ _ _ _ _ _
    (hr 0) (hr 1) (hr 2) (hr 3) (hr 4) (hr 5) (and15_or64_lt _) (hr 7) (and63_or128_lt _)
    (hr 9) (hr 10) (hr 11) (hr 12) (hr 13) (hr 14) (hr 15)
    (by rw [and15_or64_div16]; decide)
    (isVariantChar_hexChar _ (by have h := (and63_or128_div16 (r 8)).2; omega)
      (and63_or128_div16 (r 8)).1)

theorem canonicalFormat_generateUuidV7 (t : ℕ) (r : Fin 10 → ℕ) (hr : ∀ i, r i < 256) :
    CanonicalFormat (generateUuidV7 t r) := by
  rw [generateUuidV7, v7Bytes_eq]
  exact formatUuid_canonicalFormat _ _ _ _ _ _ _ _ _ _ _ _ _ _ _ _
    (jsAnd255_lt _) (jsAnd255_lt _) (jsAnd255_lt _) (jsAnd255_lt _) (jsAnd255_lt _)
    (jsAnd255_lt _) (and15_or112_lt _) (hr 1) (and63_or128_lt _) (hr 3) (hr 4) (hr 5)
    (hr 6) (hr 7) (hr 8) (hr 9)

theorem canonicalFormat_randomUUID (r : Fin 16 → ℕ) (hr : ∀ i, r i < 256) :
    CanonicalFormat (randomUUID r) := by
  rw [randomUUID_bytes_eq]
  exact formatUuid_canonicalFormat _ _ _ _ _ _ _ _ _ _ _ _ _ _ _ _
    (hr 0) (hr 1) (hr 2) (hr 3) (hr 4) (hr 5) (and15_or64_lt _) (hr 7) (and63_or128_lt _)
    (hr 9) (hr 10) (hr 11) (hr 12) (hr 13) (hr 14) (hr 15)

theorem get14_generateUuidV7 (t : ℕ) (r : Fin 10 → ℕ) :
    (generateUuidV7 t r).get? 14 = some (hexChar (((r 0 &&& 15) ||| 112) / 16)) :=
  rfl

theorem get14_randomUUID (r : Fin 16 → ℕ) :
    (randomUUID r).get? 14 = some (hexChar (((r 6 &&& 15) ||| 64) / 16)) :=
  rfl

theorem detectedVersion_generateUuidV7 (t : ℕ) (r : Fin 10 → ℕ) (hr : ∀ i, r i < 256) :
    detectedVersion (generateUuidV7 t r) = some ['v', '7'] := by
  rw [detectedVersion, if_pos (validate_generateUuidV7 t r hr), get14_generateUuidV7,
    and15_or112_div16]
  rfl

theorem detectedVersion_randomUUID (r : Fin 16 → ℕ) (hr : ∀ i, r i < 256) :
    detectedVersion (randomUUID r) = some ['v', '4'] := by
  rw [detectedVersion, if_pos (validate_randomUUID r hr), get14_randomUUID, and15_or64_div16]
  rfl

/-- Every identifier the handler loop produces validates, reports the matching
version, and is canonically formatted. -/
theorem genOne_valid (ver : Version) (env : GenEnv) (i : ℕ) (hr : WellRandom env) :
    validateUuid (genOne ver env i) = true ∧
    detectedVersion (genOne ver env i) = some (versionStr ver) ∧
    CanonicalFormat (genOne ver env i) := by
  cases ver with
  | v7 =>
    exact ⟨validate_generateUuidV7 _ _ (hr.1 i), detectedVersion_generateUuidV7 _ _ (hr.1 i),
      canonicalFormat_generateUuidV7 _ _ (hr.1 i)⟩
  | v4 =>
    exact ⟨validate_randomUUID _ (hr.2 i), detectedVersion_randomUUID _ (hr.2 i),
      canonicalFormat_randomUUID _ (hr.2 i)⟩

theorem wellRandom_zeroEnv : WellRandom zeroEnv :=
  ⟨fun _ _ => by simp [zeroEnv], fun _ _ => by simp [zeroEnv]⟩

/-- C3: round trip — every identifier string produced by a `generate_uuid`
call (either variant, any count in [1,10]) validates with `valid: true`, and
the detected version it reports matches the variant used to generate it
(v4 for the random variant, v7 for the time-ordered one). -/
theorem c3_roundtrip_validate (ver : Version) (count : ℕ) (env : GenEnv)
    (history : List Record) (hc1 : 1 ≤ count) (hc2 : count ≤ 10) (hr : WellRandom env) :
    ∀ u ∈ (generateHandler ver count env history).1,
      validateUuid u = true ∧ detectedVersion u = some (versionStr ver) := by
  intro u hu
  simp only [generateHandler, List.mem_map, List.mem_range] at hu
  obtain ⟨i, hi, rfl⟩ := hu
  exact ⟨(genOne_valid ver env i hr).1, (genOne_valid ver env i hr).2.1⟩

theorem c3_roundtrip_validate_witness :
    1 ≤ 1 ∧ 1 ≤ 10 ∧ WellRandom zeroEnv ∧
    ∀ u ∈ (generateHandler Version.v7 1 zeroEnv []).1,
      validateUuid u = true ∧ detectedVersion u = some (versionStr Version.v7) :=
  ⟨by omega, by omega, wellRandom_zeroEnv,
    c3_roundtrip_validate Version.v7 1 zeroEnv [] (by omega) (by omega) wellRandom_zeroEnv⟩

/-- C5: for every count in [1,10] and each variant, a `generate_uuid` call
returns exactly `count` canonically formatted (lowercase 8-4-4-4-12
hyphenated hex) identifiers and appends exactly `count` records to the
history (the new history is the old one extended by those records, then
trimmed), each record carrying the generated identifier, the requested
variant, and the timestamp string taken at its generation step. -/
theorem c5_generate_exact (ver : Version) (count : ℕ) (env : GenEnv) (history : List Record)
    (hc1 : 1 ≤ count) (hc2 : count ≤ 10) (hr : WellRandom env) :
    (generateHandler ver count env history).1.length = count ∧
    (∀ u ∈ (generateHandler ver count env history).1, CanonicalFormat u) ∧
    (generateHandler ver count env history).2 =
      trimHistory (history ++ (List.range count).map (generatedRecord ver env)) ∧
    ((List.range count).map (generatedRecord ver env)).length = count ∧
    (∀ i < count, ((List.range count).map (generatedRecord ver env)).getD i
        ⟨[], ver, []⟩ = ⟨genOne ver env i, ver, env.iso i⟩) := by
  refine ⟨by simp [generateHandler], ?_, rfl, by simp, ?_⟩
  · intro u hu
    simp only [generateHandler, List.mem_map, List.mem_range] at hu
    obtain ⟨i, hi, rfl⟩ := hu
    exact (genOne_valid ver env i hr).2.2
  · intro i hi
    rw [List.getD_eq_getElem?_getD]
    simp [List.getElem?_map, List.getElem?_range hi, generatedRecord]

theorem c5_generate_exact_witness :
    1 ≤ 2 ∧ 2 ≤ 10 ∧ WellRandom zeroEnv ∧
    (generateHandler Version.v4 2 zeroEnv []).1.length = 2 :=
  ⟨by omega, by omega, wellRandom_zeroEnv,
    (c5_generate_exact Version.v4 2 zeroEnv [] (by omega) (by omega) wellRandom_zeroEnv).1⟩

/-! ### Exactness of the binary64 timestamp arithmetic -/

/-- Dividing an integer below `2 ^ 53` by a power of two is exact in
binary64: the rounded result equals the true quotient. -/
theorem fl64_natCast_div_pow2 (n k : ℕ) (hn : n < 2 ^ 53) :
    fl64 ((n : ℚ) / 2 ^ k) = (n : ℚ) / 2 ^ k := by
  rcases Nat.eq_zero_or_pos n with rfl | hpos
  · simp [fl64]
  · have hq : (0 : ℚ) < (n : ℚ) / 2 ^ k := by positivity
    rw [fl64, if_neg (ne_of_gt hq), abs_of_pos hq]
    set q : ℚ := (n : ℚ) / 2 ^ k with hqdef
    set e : ℤ := Int.log 2 q with he
    have hcast : ((2 : ℕ) : ℚ) ^ ((53 : ℤ) - (k : ℤ)) = (2 : ℚ) ^ (53 : ℕ) / (2 : ℚ) ^ (k : ℕ) := by
      rw [show ((2 : ℕ) : ℚ) = (2 : ℚ) by norm_num, zpow_sub₀ (by norm_num : (2 : ℚ) ≠ 0)]
      norm_num [zpow_natCast]
    have hlt : q < ((2 : ℕ) : ℚ) ^ ((53 : ℤ) - (k : ℤ)) := by
      rw [hcast, hqdef]
      have hn53 : (n : ℚ) < (2 : ℚ) ^ (53 : ℕ) := by exact_mod_cast hn
      gcongr
    have he_lt : e < 53 - (k : ℤ) := by
      rw [he]
      exact (Int.lt_zpow_iff_log_lt (by norm_num) hq).mp hlt
    have hj : (0 : ℤ) ≤ 52 - e - (k : ℤ) := by omega
    have hqm : q = (n : ℚ) * (2 : ℚ) ^ (-(k : ℤ)) := by
      rw [hqdef, zpow_neg, div_eq_mul_inv, zpow_natCast]
    have key : q * (2 : ℚ) ^ ((52 : ℤ) - e) = ((n * 2 ^ (52 - e - (k : ℤ)).toNat : ℕ) : ℚ) := by
      rw [hqm, mul_assoc, ← zpow_add₀ (by norm_num : (2 : ℚ) ≠ 0)]
      rw [show -(k : ℤ) + (52 - e) = 52 - e - k by ring]
      rw [← Int.toNat_of_nonneg hj, zpow_natCast, Nat.cast_mul, Nat.cast_pow]
      norm_num
    rw [key, round_natCast, Int.cast_natCast, ← key, mul_assoc,
      ← zpow_add₀ (by norm_num : (2 : ℚ) ≠ 0),
      show (52 : ℤ) - e + (e - 52) = 0 by ring, zpow_zero, mul_one]

/-- Floor of an exact natural quotient is natural division. -/
theorem floor_natCast_div_pow2 (n k : ℕ) : ⌊(n : ℚ) / 2 ^ k⌋ = (n / 2 ^ k : ℕ) := by
  have h0 : (0 : ℚ) ≤ (n : ℚ) / 2 ^ k := by positivity
  have h2 : (0 : ℤ) ≤ ⌊(n : ℚ) / 2 ^ k⌋ := Int.floor_nonneg.mpr h0
  have h1 : ⌊(n : ℚ) / 2 ^ k⌋₊ = n / 2 ^ k := by
    rw [show ((2 : ℚ) ^ k) = ((2 ^ k : ℕ) : ℚ) by push_cast; ring]
    rw [Nat.floor_div_nat (n : ℚ) (2 ^ k), Nat.floor_natCast]
  rw [← Int.toNat_of_nonneg h2, Int.floor_toNat, h1]

/-- The 32-bit reduction followed by the `0xff` mask is reduction mod 256. -/
theorem int32_mask (m : ℕ) : (((m : ℤ) % 2 ^ 32).toNat) &&& 255 = m % 256 := by
  have h1 : ((m : ℤ) % 2 ^ 32).toNat = m % 2 ^ 32 := by
    rw [show ((2 : ℤ) ^ 32) = ((2 ^ 32 : ℕ) : ℤ) by norm_num, ← Int.natCast_mod]
    exact Int.toNat_natCast _
  have h2 : (m % 2 ^ 32) &&& (2 ^ 8 - 1) = (m % 2 ^ 32) % 2 ^ 8 :=
    Nat.and_pow_two_sub_one_eq_mod _ 8
  have h3 : (m % 2 ^ 32) % 2 ^ 8 = m % 2 ^ 8 :=
    Nat.mod_mod_of_dvd m (by norm_num)
  rw [h1, show (255 : ℕ) = 2 ^ 8 - 1 by norm_num, h2, h3]
  norm_num

theorem jsAnd255_natCast (m : ℕ) : jsAnd255 ((m : ℚ)) = m % 256 := by
  rw [jsAnd255, jsTrunc, if_pos (by positivity : (0 : ℚ) ≤ (m : ℚ)), Int.floor_natCast]
  exact int32_mask m

theorem jsAnd255_div_pow2 (n k : ℕ) : jsAnd255 ((n : ℚ) / 2 ^ k) = n / 2 ^ k % 256 := by
  rw [jsAnd255, jsTrunc, if_pos (by positivity : (0 : ℚ) ≤ (n : ℚ) / 2 ^ k),
    floor_natCast_div_pow2]
  exact int32_mask _

/-- C10: for every timestamp `t < 2 ^ 48`, the six timestamp bytes computed
by `generateUuidV7` through binary64 float division and `& 0xff` masking
equal the exact big-endian base-256 digits of `t`: byte `k` is
`t / 2 ^ (8 * (5 - k)) mod 256`; the floating-point arithmetic introduces no
error in this range. -/
theorem c10_timestamp_bytes_exact (t : ℕ) (ht : t < 2 ^ 48) :
    v7TimestampBytes t =
      [t / 2 ^ 40 % 256, t / 2 ^ 32 % 256, t / 2 ^ 24 % 256,
        t / 2 ^ 16 % 256, t / 2 ^ 8 % 256, t % 256] := by
  have h53 : t < 2 ^ 53 := by omega
  rw [v7TimestampBytes, fl64_natCast_div_pow2 t 40 h53, fl64_natCast_div_pow2 t 32 h53,
    fl64_natCast_div_pow2 t 24 h53, fl64_natCast_div_pow2 t 16 h53,
    fl64_natCast_div_pow2 t 8 h53, jsAnd255_div_pow2, jsAnd255_div_pow2, jsAnd255_div_pow2,
    jsAnd255_div_pow2, jsAnd255_div_pow2, jsAnd255_natCast]

theorem c10_timestamp_bytes_exact_witness :
    (1700000000000 : ℕ) < 2 ^ 48 ∧
    v7TimestampBytes 1700000000000 =
      [1700000000000 / 2 ^ 40 % 256, 1700000000000 / 2 ^ 32 % 256,
        1700000000000 / 2 ^ 24 % 256, 1700000000000 / 2 ^ 16 % 256,
        1700000000000 / 2 ^ 8 % 256, 1700000000000 % 256] :=
  ⟨by norm_num, c10_timestamp_bytes_exact 1700000000000 (by norm_num)⟩

/-- C6: at any timestamp `t < 2 ^ 48` and any random fill, the generated
16-byte value carries `t` big-endian in bytes 0-5 (so the top 48 bits equal
`t`), has the high nibble of byte 6 forced to 7, and the high two bits of
byte 8 forced to `10` (value 2). -/
theorem c6_v7_bit_layout (t : ℕ) (ht : t < 2 ^ 48) (r : Fin 10 → ℕ) :
    (v7Bytes t r).getD 0 0 * 2 ^ 40 + (v7Bytes t r).getD 1 0 * 2 ^ 32
      + (v7Bytes t r).getD 2 0 * 2 ^ 24 + (v7Bytes t r).getD 3 0 * 2 ^ 16
      + (v7Bytes t r).getD 4 0 * 2 ^ 8 + (v7Bytes t r).getD 5 0 = t ∧
    (v7Bytes t r).getD 6 0 / 16 = 7 ∧
    (v7Bytes t r).getD 8 0 / 64 = 2 := by
  have h53 : t < 2 ^ 53 := by omega
  have e0 : (v7Bytes t r).getD 0 0 = jsAnd255 (fl64 ((t : ℚ) / 2 ^ 40)) := rfl
  have e1 : (v7Bytes t r).getD 1 0 = jsAnd255 (fl64 ((t : ℚ) / 2 ^ 32)) := rfl
  have e2 : (v7Bytes t r).getD 2 0 = jsAnd255 (fl64 ((t : ℚ) / 2 ^ 24)) := rfl
  have e3 : (v7Bytes t r).getD 3 0 = jsAnd255 (fl64 ((t : ℚ) / 2 ^ 16)) := rfl
  have e4 : (v7Bytes t r).getD 4 0 = jsAnd255 (fl64 ((t : ℚ) / 2 ^ 8)) := rfl
  have e5 : (v7Bytes t r).getD 5 0 = jsAnd255 ((t : ℚ)) := rfl
  have e6 : (v7Bytes t r).getD 6 0 = (r 0 &&& 15) ||| 112 := rfl
  have e8 : (v7Bytes t r).getD 8 0 = (r 2 &&& 63) ||| 128 := rfl
  refine ⟨?_, ?_, ?_⟩
  · rw [e0, e1, e2, e3, e4, e5, fl64_natCast_div_pow2 t 40 h53,
      fl64_natCast_div_pow2 t 32 h53, fl64_natCast_div_pow2 t 24 h53,
      fl64_natCast_div_pow2 t 16 h53, fl64_natCast_div_pow2 t 8 h53,
      jsAnd255_div_pow2, jsAnd255_div_pow2, jsAnd255_div_pow2, jsAnd255_div_pow2,
      jsAnd255_div_pow2, jsAnd255_natCast]
    omega
  · rw [e6]; exact and15_or112_div16 _
  · rw [e8]; exact and63_or128_div64 _

theorem c6_v7_bit_layout_witness :
    (1700000000000 : ℕ) < 2 ^ 48 ∧
    ((v7Bytes 1700000000000 (fun _ => 0)).getD 0 0 * 2 ^ 40
        + (v7Bytes 1700000000000 (fun _ => 0)).getD 1 0 * 2 ^ 32
        + (v7Bytes 1700000000000 (fun _ => 0)).getD 2 0 * 2 ^ 24
        + (v7Bytes 1700000000000 (fun _ => 0)).getD 3 0 * 2 ^ 16
        + (v7Bytes 1700000000000 (fun _ => 0)).getD 4 0 * 2 ^ 8
        + (v7Bytes 1700000000000 (fun _ => 0)).getD 5 0 = 1700000000000 ∧
      (v7Bytes 1700000000000 (fun _ => 0)).getD 6 0 / 16 = 7 ∧
      (v7Bytes 1700000000000 (fun _ => 0)).getD 8 0 / 64 = 2) :=
  ⟨by norm_num, c6_v7_bit_layout 1700000000000 (by norm_num) (fun _ => 0)⟩

/-! ### Lexicographic ordering of time-ordered identifiers -/

theorem hexFixed_length (w : ℕ) : ∀ n : ℕ, (hexFixed w n).length = w := by
  induction w with
  | zero => intro n; rfl
  | succ w ih => intro n; simp [hexFixed, ih]

theorem hexChar_lt_hexChar : ∀ d2 : ℕ, d2 < 16 → ∀ d1 : ℕ, d1 < d2 → hexChar d1 < hexChar d2 := by
  decide

theorem list_lt_append {l1 l2 : List Char} (r1 r2 : List Char) (h : l1 < l2)
    (hlen : l1.length = l2.length) : l1 ++ r1 < l2 ++ r2 := by
  induction h with
  | nil => simp at hlen
  | cons h ih => exact List.Lex.cons (ih (by simpa using hlen))
  | rel h => exact List.Lex.rel h

theorem list_lt_append_left (l : List Char) {r1 r2 : List Char} (h : r1 < r2) :
    l ++ r1 < l ++ r2 := by
  induction l with
  | nil => simpa using h
  | cons c l ih => exact List.Lex.cons ih

theorem hexFixed_lt (w : ℕ) : ∀ {n1 n2 : ℕ}, n1 < n2 → n2 < 16 ^ w →
    hexFixed w n1 < hexFixed w n2 := by
  induction w with
  | zero =>
    intro n1 n2 h1 h2
    exact absurd h1 (by omega)
  | succ w ih =>
    intro n1 n2 h1 h2
    have hpos : 0 < 16 ^ w := pow_pos (by norm_num) w
    have hd : n1 / 16 ^ w ≤ n2 / 16 ^ w := Nat.div_le_div_right (le_of_lt h1)
    simp only [hexFixed]
    rcases lt_or_eq_of_le hd with hlt | heq
    · refine List.Lex.rel ?_
      have hb : n2 / 16 ^ w < 16 := by
        rw [Nat.div_lt_iff_lt_mul hpos]
        calc n2 < 16 ^ (w + 1) := h2
          _ = 16 * 16 ^ w := by ring
      exact hexChar_lt_hexChar _ hb _ hlt
    · rw [heq]
      refine List.Lex.cons ?_
      refine ih ?_ (Nat.mod_lt _ hpos)
      have e1 := Nat.div_add_mod n1 (16 ^ w)
      have e2 := Nat.div_add_mod n2 (16 ^ w)
      rw [heq] at e1
      omega

theorem formatUuid_decomp (b0 b1 b2 b3 b4 b5 b6 b7 b8 b9 b10 b11 b12 b13 b14 b15 : ℕ) :
    formatUuid [b0, b1, b2, b3, b4, b5, b6, b7, b8, b9, b10, b11, b12, b13, b14, b15] =
      (byteToHex b0 ++ byteToHex b1 ++ byteToHex b2 ++ byteToHex b3) ++ '-' ::
        ((byteToHex b4 ++ byteToHex b5) ++ '-' ::
          ((byteToHex b6 ++ byteToHex b7) ++ '-' ::
            ((byteToHex b8 ++ byteToHex b9) ++ '-' ::
              (byteToHex b10 ++ byteToHex b11 ++ byteToHex b12 ++ byteToHex b13
                ++ byteToHex b14 ++ byteToHex b15)))) :=
  rfl

theorem g1_eq_hexFixed (t : ℕ) (ht : t < 2 ^ 48) :
    byteToHex (t / 2 ^ 40 % 256) ++ byteToHex (t / 2 ^ 32 % 256)
      ++ byteToHex (t / 2 ^ 24 % 256) ++ byteToHex (t / 2 ^ 16 % 256)
      = hexFixed 8 (t / 2 ^ 16) := by
  simp only [hexFixed, byteToHex, List.cons_append, List.nil_append, List.cons.injEq, and_true]
  refine ⟨?_, ?_, ?_, ?_, ?_, ?_, ?_, ?_⟩ <;> exact congrArg hexChar (by omega)

theorem g2_eq_hexFixed (t : ℕ) :
    byteToHex (t / 2 ^ 8 % 256) ++ byteToHex (t % 256) = hexFixed 4 (t % 2 ^ 16) := by
  simp only [hexFixed, byteToHex, List.cons_append, List.nil_append, List.cons.injEq, and_true]
  refine ⟨?_, ?_, ?_, ?_⟩ <;> exact congrArg hexChar (by omega)

/-- A time-ordered identifier splits into thirteen timestamp-determined
characters followed by a timestamp-independent tail. -/
theorem generateUuidV7_decomp (t : ℕ) (r : Fin 10 → ℕ) (ht : t < 2 ^ 48) :
    generateUuidV7 t r =
      hexFixed 8 (t / 2 ^ 16) ++ '-' :: (hexFixed 4 (t % 2 ^ 16) ++ '-' :: v7Tail r) := by
  have h53 : t < 2 ^ 53 := by omega
  rw [generateUuidV7, v7Bytes_eq, formatUuid_decomp,
    fl64_natCast_div_pow2 t 40 h53, fl64_natCast_div_pow2 t 32 h53,
    fl64_natCast_div_pow2 t 24 h53, fl64_natCast_div_pow2 t 16 h53,
    fl64_natCast_div_pow2 t 8 h53, jsAnd255_div_pow2, jsAnd255_div_pow2, jsAnd255_div_pow2,
    jsAnd255_div_pow2, jsAnd255_div_pow2, jsAnd255_natCast,
    ← g1_eq_hexFixed t ht, ← g2_eq_hexFixed t, v7Tail]

/-- C7: time-ordered identifiers generated at non-decreasing wall-clock
milliseconds sort lexicographically: for strictly increasing timestamps below
2^48 the canonical strings compare strictly (and hence non-decreasing
timestamps give non-decreasing strings for distinct milliseconds); within one
millisecond the relative order is left unspecified by the spec (random
tail). -/
theorem c7_v7_lex_mono (t1 t2 : ℕ) (r1 r2 : Fin 10 → ℕ) (h12 : t1 < t2)
    (ht2 : t2 < 2 ^ 48) : generateUuidV7 t1 r1 < generateUuidV7 t2 r2 := by
  rw [generateUuidV7_decomp t1 r1 (by omega), generateUuidV7_decomp t2 r2 ht2]
  rcases Nat.lt_or_ge (t1 / 2 ^ 16) (t2 / 2 ^ 16) with hlt | hge
  · exact list_lt_append _ _ (hexFixed_lt 8 hlt (by omega))
      (by rw [hexFixed_length, hexFixed_length])
  · have heq : t1 / 2 ^ 16 = t2 / 2 ^ 16 := by omega
    rw [heq]
    have hlow : t1 % 2 ^ 16 < t2 % 2 ^ 16 := by omega
    exact list_lt_append_left _ (List.Lex.cons
      (list_lt_append _ _ (hexFixed_lt 4 hlow (by omega))
        (by rw [hexFixed_length, hexFixed_length])))

theorem c7_v7_lex_mono_witness :
    (0 : ℕ) < 1 ∧ (1 : ℕ) < 2 ^ 48 ∧
    generateUuidV7 0 (fun _ => 0) < generateUuidV7 1 (fun _ => 0) :=
  ⟨by omega, by norm_num, c7_v7_lex_mono 0 1 (fun _ => 0) (fun _ => 0) (by omega) (by norm_num)⟩

/-! ### History bound, FIFO eviction, snapshot -/

/-- The shift-until-within-bound loop removes exactly the oldest surplus
records: it equals dropping `length - 100` elements from the front. -/
theorem trimHistory_eq_drop (l : List Record) : trimHistory l = l.drop (l.length - 100) := by
  have main : ∀ (n : ℕ) (l : List Record), l.length ≤ n →
      trimHistory l = l.drop (l.length - 100) := by
    intro n
    induction n with
    | zero =>
      intro l hl
      have h0 : l.length = 0 := by omega
      obtain rfl := List.length_eq_zero.mp h0
      rw [trimHistory]
      simp
    | succ n ih =>
      intro l hl
      rw [trimHistory]
      split_ifs with h
      · have htl : l.tail.length ≤ n := by
          simp only [List.length_tail]
          omega
        rw [ih l.tail htl, ← List.drop_one, List.drop_drop]
        congr 1
        simp only [List.length_drop, List.length_tail]
        omega
      · have h0 : l.length - 100 = 0 := by omega
        rw [h0, List.drop_zero]
  exact main l.length l (le_refl _)

theorem trimHistory_length_le (l : List Record) : (trimHistory l).length ≤ 100 := by
  rw [trimHistory_eq_drop, List.length_drop]
  omega

theorem runFrom_cons (c : Call) (cs : List Call) (h : List Record) :
    runFrom (c :: cs) h = runFrom cs (trimHistory (h ++ callRecords c)) :=
  rfl

theorem allRecords_cons (c : Call) (cs : List Call) :
    allRecords (c :: cs) = callRecords c ++ allRecords cs := by
  simp [allRecords]

/-- Running calls from a within-bound history yields the globally dropped
concatenation: intermediate FIFO trims compose into one front drop. -/
theorem runFrom_eq_drop (cs : List Call) : ∀ h : List Record, h.length ≤ 100 →
    runFrom cs h = (h ++ allRecords cs).drop (h.length + (allRecords cs).length - 100) := by
  induction cs with
  | nil =>
    intro h hh
    have h0 : h.length + (allRecords []).length - 100 = 0 := by
      simp [allRecords]
      omega
    rw [h0, List.drop_zero]
    show h = h ++ allRecords []
    simp [allRecords]
  | cons c cs ih =>
    intro h hh
    rw [runFrom_cons, ih _ (trimHistory_length_le _), trimHistory_eq_drop]
    have hd1 : (h ++ callRecords c).length - 100 ≤ (h ++ callRecords c).length := by omega
    rw [← List.drop_append_of_le_length hd1, List.drop_drop, allRecords_cons,
      ← List.append_assoc]
    congr 1
    simp only [List.length_drop, List.length_append]
    omega

/-- C2: after any sequence of `generate_uuid` calls the history holds at most
100 records; eviction is FIFO (the trim loop drops from the front, i.e. the
oldest records first); and once 150 records have been appended in total, the
most-recent-20 snapshot returns exactly records 131 through 150 in insertion
order. -/
theorem c2_history_bound_fifo (cs : List Call) (h150 : (allRecords cs).length = 150) :
    (∀ ds : List Call, (runCalls ds).length ≤ 100) ∧
    (∀ l : List Record, trimHistory l = l.drop (l.length - 100)) ∧
    sliceLast 20 (runCalls cs) = (allRecords cs).drop 130 := by
  refine ⟨?_, trimHistory_eq_drop, ?_⟩
  · intro ds
    rw [runCalls, runFrom_eq_drop ds [] (by simp), List.length_drop]
    simp only [List.nil_append, List.length_nil, Nat.zero_add]
    omega
  · rw [runCalls, runFrom_eq_drop cs [] (by simp), sliceLast]
    simp only [List.nil_append, List.length_nil, Nat.zero_add, h150, List.drop_drop,
      List.length_drop]

theorem c2_history_bound_fifo_witness :
    (allRecords (List.replicate 150 zeroCall)).length = 150 ∧
    sliceLast 20 (runCalls (List.replicate 150 zeroCall)) =
      (allRecords (List.replicate 150 zeroCall)).drop 130 := by
  have hlen : (allRecords (List.replicate 150 zeroCall)).length = 150 := by
    simp [allRecords, callRecords, zeroCall]
  exact ⟨hlen, (c2_history_bound_fifo (List.replicate 150 zeroCall) hlen).2.2⟩

/-! ### HTTP session gate -/

/-- C9: a POST to the MCP endpoint that carries no session token and is not
an initialize request, or that carries a token not present in the session
map, is rejected with HTTP status 400 and JSON-RPC code -32000 while the
session map stays unchanged; the map changes only when a token-less
initialize request mints exactly one fresh session — no session is ever
created implicitly. -/
theorem c9_session_gate (sessions : List String) (req : PostRequest) (freshId : String) :
    ((tokenOf req = none ∧ req.isInit = false) →
      (handlePost sessions req freshId).1 = PostOutcome.rejected 400 (-32000) ∧
      (handlePost sessions req freshId).2 = sessions) ∧
    (∀ sid : String, tokenOf req = some sid → sid ∉ sessions →
      (handlePost sessions req freshId).1 = PostOutcome.rejected 400 (-32000) ∧
      (handlePost sessions req freshId).2 = sessions) ∧
    ((handlePost sessions req freshId).2 ≠ sessions →
      tokenOf req = none ∧ req.isInit = true ∧
      (handlePost sessions req freshId).2 = freshId :: sessions) := by
  refine ⟨?_, ?_, ?_⟩
  · rintro ⟨h1, h2⟩
    constructor <;> simp [handlePost, h1, h2]
  · intro sid h1 h2
    constructor <;> simp [handlePost, h1, h2]
  · intro hne
    cases htok : tokenOf req with
    | none =>
      cases hinit : req.isInit with
      | false => exact absurd (by simp [handlePost, htok, hinit]) hne
      | true => exact ⟨rfl, rfl, by simp [handlePost, htok, hinit]⟩
    | some sid =>
      by_cases hmem : sid ∈ sessions
      · exact absurd (by simp [handlePost, htok, hmem]) hne
      · exact absurd (by simp [handlePost, htok, hmem]) hne

theorem c9_session_gate_witness :
    tokenOf ⟨some "B", false⟩ = some "B" ∧ ("B" : String) ∉ ["A"] ∧
    (handlePost ["A"] ⟨some "B", false⟩ "F").1 = PostOutcome.rejected 400 (-32000) ∧
    (handlePost ["A"] ⟨some "B", false⟩ "F").2 = ["A"] := by
  have ht : tokenOf ⟨some "B", false⟩ = some "B" := rfl
  have hm : ("B" : String) ∉ ["A"] := by simp
  exact ⟨ht, hm, (c9_session_gate ["A"] ⟨some "B", false⟩ "F").2.1 "B" ht hm⟩

/-! ### Shared module-level history across sessions -/

/-- C1 counterexample: with two active sessions "A" and "B" over the empty
history, one generate_uuid through session A changes the result of session
B's uuid://history read — the module-level history is shared, so the claim
that the other session's history is left unchanged fails at this input. -/
theorem c1_counterexample :
    sessionReadHistory
        (sessionGenerate ⟨["A", "B"], []⟩ "A" Version.v4 1 zeroEnv) "B" ≠
      sessionReadHistory (⟨["A", "B"], []⟩ : ProcState) "B" := by
  have hA : ("A" : String) ∈ ["A", "B"] := by simp
  have hB : ("B" : String) ∈ ["A", "B"] := by simp
  have h2 : (generateHandler Version.v4 1 zeroEnv []).2 =
      [generatedRecord Version.v4 zeroEnv 0] := by
    show trimHistory ([] ++ (List.range 1).map (generatedRecord Version.v4 zeroEnv)) = _
    rw [trimHistory_eq_drop]
    simp [show List.range 1 = [0] from rfl]
  have h1 : sessionGenerate ⟨["A", "B"], []⟩ "A" Version.v4 1 zeroEnv =
      ⟨["A", "B"], [generatedRecord Version.v4 zeroEnv 0]⟩ := by
    simp only [sessionGenerate]
    rw [if_pos hA, h2]
  rw [h1]
  simp [sessionReadHistory, hB, historyResource, sliceLast]

/-- C1 amended: the history is module-scoped and shared by every session of
the HTTP process (each session does own a separate dispatcher, but all of
them close over the single module-level uuidHistory array): history reads
through any two active sessions agree, and after a generate_uuid through one
active session, every active session's uuid://history read returns the
updated shared history. -/
theorem c1_amended_shared_history (st : ProcState) (a b : String) (ha : a ∈ st.sessions)
    (hb : b ∈ st.sessions) (ver : Version) (count : ℕ) (env : GenEnv) :
    sessionReadHistory st a = sessionReadHistory st b ∧
    sessionReadHistory (sessionGenerate st a ver count env) b =
      some (historyResource (generateHandler ver count env st.history).2) := by
  constructor
  · simp [sessionReadHistory, ha, hb]
  · simp [sessionGenerate, sessionReadHistory, ha, hb]

theorem c1_amended_shared_history_witness :
    ("A" : String) ∈ ["A", "B"] ∧ ("B" : String) ∈ ["A", "B"] ∧
    sessionReadHistory (⟨["A", "B"], []⟩ : ProcState) "A" =
      sessionReadHistory (⟨["A", "B"], []⟩ : ProcState) "B" :=
  ⟨by simp, by simp,
    (c1_amended_shared_history ⟨["A", "B"], []⟩ "A" "B" (by simp) (by simp)
      Version.v4 1 zeroEnv).1⟩

/-! ### The generate_uuid input schema -/

/-- C8 counterexample: the schema accepts the non-integer count 2.5 — the
declaration is a plain number constrained to [1,10] with no integrality
check, so a non-integer count inside the range is not rejected with
InvalidParams, contrary to the claim. -/
theorem c8_counterexample :
    parseGenerateArgs none (some (5 / 2)) = Except.ok (Version.v4, 5 / 2) ∧
    ((5 : ℚ) / 2).den ≠ 1 := by
  constructor
  · have hc : parseCountField (some (5 / 2)) = Except.ok (5 / 2) := by
      rw [parseCountField, if_pos (by norm_num)]
    rw [parseGenerateArgs]
    rw [show parseVersionField none = Except.ok Version.v4 from rfl, hc]
  · norm_num

/-- C8 amended: the schema declares version as one of the two fixed strings
defaulting to the random variant, and count as a number in [1,10] defaulting
to 1 — with no integrality constraint: count 0, count 11, and every count
outside [1,10] are rejected with an InvalidParams-class failure before the
handler runs, omitting count runs with count 1, and a non-integer count
within [1,10] passes validation. -/
theorem c8_amended_schema :
    parseGenerateArgs none none = Except.ok (Version.v4, 1) ∧
    parseVersionField (some "v4") = Except.ok Version.v4 ∧
    parseVersionField (some "v7") = Except.ok Version.v7 ∧
    (∀ s : String, s ≠ "v4" → s ≠ "v7" →
      parseVersionField (some s) = Except.error SchemaError.invalidParams) ∧
    parseCountField (some 0) = Except.error SchemaError.invalidParams ∧
    parseCountField (some 11) = Except.error SchemaError.invalidParams ∧
    (∀ x : ℚ, (x < 1 ∨ 10 < x) →
      parseCountField (some x) = Except.error SchemaError.invalidParams) ∧
    (∀ x : ℚ, 1 ≤ x → x ≤ 10 → parseCountField (some x) = Except.ok x) := by
  refine ⟨rfl, rfl, rfl, ?_, ?_, ?_, ?_, ?_⟩
  · intro s h4 h7
    simp [parseVersionField, h4, h7]
  · rw [parseCountField, if_neg (by norm_num)]
  · rw [parseCountField, if_neg (by norm_num)]
  · intro x hx
    have hnot : ¬(1 ≤ x ∧ x ≤ 10) := by
      rcases hx with hx | hx <;> rintro ⟨ha, hb⟩ <;> linarith
    rw [parseCountField, if_neg hnot]
  · intro x h1 h2
    rw [parseCountField, if_pos ⟨h1, h2⟩]

theorem c8_amended_schema_witness :
    ((11 : ℚ) < 1 ∨ (10 : ℚ) < 11) ∧
    parseCountField (some 11) = Except.error SchemaError.invalidParams :=
  ⟨Or.inr (by norm_num), c8_amended_schema.2.2.2.2.2.2.1 11 (Or.inr (by norm_num))⟩

end UuidMcp
